import Mathlib

/-!
Shallow embedding of src/quant_model.py (SpikingLlama QuantGPT model) and proofs
about it.  Real-valued tensors are modelled as total functions from natural-number
indices to real numbers; sizes appear as explicit summation bounds.  The batch
dimension is elided throughout (every operation of the source is batchwise
parallel), positions/heads/channels are kept.  Python floats are modelled as real
numbers; the only non-finite float value the source manipulates is the additive
attention bias float("-inf"), modelled by the dedicated type BiasVal below.
-/

namespace SpikingLlama

noncomputable section

/-- A tensor axis: channel index to real value. -/
abbrev Vec := ℕ → ℝ

/-- Dot product of the first n channels. -/
def dot (n : ℕ) (u v : Vec) : ℝ := ∑ i ∈ Finset.range n, u i * v i

/-- Forward pass of torch.nn.Linear with input width nIn: output o = W[o]·x + b[o]
(weight stored row o, column i as in torch, shape (out, in)). -/
def linearFwd (nIn : ℕ) (W : ℕ → ℕ → ℝ) (b : Vec) (x : Vec) : Vec :=
  fun o => dot nIn (W o) x + b o

/-- The all-zero vector (used for absent biases, bias=False in torch). -/
def zeroVec : Vec := fun _ => 0

/-- F.relu on a real scalar. -/
def relu (x : ℝ) : ℝ := max x 0

/-- One entry of the additive attention bias (quant_model.py lines 431-440): either a
finite float or float("-inf"). -/
inductive BiasVal
  | neginf : BiasVal
  | fin : ℝ → BiasVal

/-- IEEE addition of a finite score and a bias entry: adding float("-inf") to a finite
score gives -inf. -/
def addBias (s : ℝ) : BiasVal → BiasVal
  | .neginf => .neginf
  | .fin r => .fin (s + r)

/-- F.relu extended to bias-shifted scores: relu(-inf) = max(-inf, 0) = 0. -/
def reluB : BiasVal → ℝ
  | .neginf => 0
  | .fin r => relu r

/-- The optional mask argument of scaled_dot_product_attention: torch distinguishes
boolean masks from float (additive) masks by dtype (line 437). -/
inductive AttnMask
  | boolMask : (ℕ → ℕ → Bool) → AttnMask
  | floatMask : (ℕ → ℕ → BiasVal) → AttnMask

/-- The additive bias attn_bias built by scaled_dot_product_attention, lines 431-440.
With no mask, a lower-triangular causal bias: 0 at key position j ≤ query position i,
-inf strictly after.  With a float mask, attn_bias = zeros + mask = mask.  With a
boolean mask the source executes mask.masked_fill_(mask.logical_not(), float("-inf")):
the in-place fill targets the mask tensor itself, not attn_bias, and its result is
never used, so attn_bias is returned still all zeros (this is what lines 436-438 do;
attn_bias.to(q.dtype) at line 435 is also a no-op since its result is discarded). -/
def attnBias (mask : Option AttnMask) : ℕ → ℕ → BiasVal :=
  match mask with
  | none => fun i j => if j ≤ i then .fin 0 else .neginf
  | some (.boolMask _) => fun _ _ => .fin 0
  | some (.floatMask m) => fun i j => m i j

/-- CausalSelfAttention.scaled_dot_product_attention (lines 406-446), batch elided.
Tensors are indexed (position, head, channel) as at the call site; the transposes of
lines 421-423 and the final y.transpose(1, 2) are realised by the index order used
here.  scale = 1.0 / self.config.head_size (line 409); since scale is not None the
1/sqrt branch of line 430 is dead and scale_factor = scale.  repeat_interleave
(lines 425-427) sends query head h to key/value head h / (Hq / Hkv), and the branch
is the identity when the sizes agree (Hq = Hkv makes the divisor 1).  S = k.size(-2)
is the key sequence length.  torch.dropout with p = 0 (line 444) is the identity.
The result is attn_weight @ v with attn_weight = relu(q @ k.T * scale_factor +
attn_bias): no softmax is applied. -/
def scaled_dot_product_attention (headSize Hq Hkv S : ℕ)
    (q k v : ℕ → ℕ → Vec) (mask : Option AttnMask) : ℕ → ℕ → Vec :=
  fun i h c =>
    ∑ j ∈ Finset.range S,
      reluB (addBias (dot headSize (q i h) (k j (h / (Hq / Hkv))) * (1 / (headSize : ℝ)))
          (attnBias mask i j))
        * v j (h / (Hq / Hkv)) c

/-- State of an AlphaInit parameter (lines 95-110): the per-channel data together
with the lazily-set flag.  The source field name initialized is shortened to inited. -/
structure AlphaInit where
  data : Vec
  size : ℕ
  inited : Bool

/-- The value AlphaInit.initialize_wrapper computes (lines 107-110): the input is
flattened to m rows of a.size channels by view(-1, size), and channel c receives
4 times the mean absolute value of column c. -/
def AlphaInit.initVal (_a : AlphaInit) (m : ℕ) (x : ℕ → Vec) : Vec :=
  fun c => 4 * ((∑ r ∈ Finset.range m, |x r c|) / (m : ℝ))

/-- AlphaInit._initialize (lines 102-105): the assert fails with "already initialized."
when the flag is already set; otherwise the data is overwritten and the flag set. -/
def AlphaInit.initOnce (a : AlphaInit) (t : Vec) : Except String AlphaInit :=
  if a.inited then .error "already initialized."
  else .ok { data := t, size := a.size, inited := true }

/-- AlphaInit.initialize_wrapper (lines 107-110). -/
def AlphaInit.initWrapper (a : AlphaInit) (m : ℕ) (x : ℕ → Vec) : Except String AlphaInit :=
  a.initOnce (a.initVal m x)

/-- Forward pass of act_heaveside(scale) (lines 72-80) on an m-row input batch:
y = x - beta, positive = (y > 0).float(), alpha is lazily initialised from x when its
flag is unset (the guarded call to initialize_wrapper, which cannot fail here), and
out = alpha * positive uses the possibly-updated alpha.  Returns the output batch and
the updated alpha state.  The trailing .to(x.dtype) is a no-op over the reals. -/
def heavesideForward (m : ℕ) (x : ℕ → Vec) (alpha : AlphaInit) (beta : Vec) :
    (ℕ → Vec) × AlphaInit :=
  (fun r c =>
      if 0 < x r c - beta c then
        (if alpha.inited then alpha
          else { data := alpha.initVal m x, size := alpha.size, inited := true }).data c
      else 0,
    if alpha.inited then alpha
      else { data := alpha.initVal m x, size := alpha.size, inited := true })

/-- Backward pass of act_heaveside(scale), grad_input (lines 84-91): with y = x - beta
saved from the forward pass, arctan_d = 1/pi * scale / ((scale*y)**2 + 1) and
grad_input = alpha * arctan_d * grad_output, elementwise. -/
def heavesideGradInput (scale : ℝ) (alpha : Vec) (y g : ℕ → Vec) : ℕ → Vec :=
  fun r c => alpha c * (1 / Real.pi * scale / ((scale * y r c) ^ 2 + 1)) * g r c

/-- Backward pass of act_heaveside, grad_alpha before engine reduction (line 86-87):
alpha_d = 1/pi * arctan(y) + 1/2 and grad_alpha = alpha_d * grad_output, elementwise. -/
def heavesideGradAlphaElem (y g : ℕ → Vec) : ℕ → Vec :=
  fun r c => (1 / Real.pi * Real.arctan (y r c) + 1 / 2) * g r c

/-- Backward pass of act_heaveside, grad_beta (line 89): -alpha * arctan_d *
grad_output, elementwise, computed from the incoming grad_output (the line runs before
grad_input is overwritten). -/
def heavesideGradBeta (scale : ℝ) (alpha : Vec) (y g : ℕ → Vec) : ℕ → Vec :=
  fun r c => -alpha c * (1 / Real.pi * scale / ((scale * y r c) ^ 2 + 1)) * g r c

/-- Modelled from the spec: the reduction of the elementwise alpha gradient over the
batch rows to the per-channel parameter shape ("each summed appropriately over the
batch", spec section 4.1).  The reduction itself happens in the tensor library's
autograd accumulation, outside the source file. -/
def heavesideGradAlphaSum (m : ℕ) (y g : ℕ → Vec) : Vec :=
  fun c => ∑ r ∈ Finset.range m, heavesideGradAlphaElem y g r c

/-- Modelled from the spec: the batch reduction of the elementwise beta gradient,
as for heavesideGradAlphaSum. -/
def heavesideGradBetaSum (m : ℕ) (scale : ℝ) (alpha : Vec) (y g : ℕ → Vec) : Vec :=
  fun c => ∑ r ∈ Finset.range m, heavesideGradBeta scale alpha y g r c

/-- ParamHeaveside.forward (lines 112-121) for an already-initialised embed_scale:
with the flag set, act_heaveside leaves the state untouched and the output is
alpha * (x - beta > 0), per channel.  This single-row form is what every use inside
the model reduces to once initialisation has happened. -/
def heaviside (alpha beta : Vec) (x : Vec) : Vec :=
  fun c => if 0 < x c - beta c then alpha c else 0

/-- Default eps of F.normalize (1e-12). -/
def normalizeEps : ℝ := 1 / 10 ^ 12

/-- weight.mean(dim=0, keepdim=True) (line 129): the mean over the output dimension,
one value per input column i. -/
def colMean (nOut : ℕ) (W : ℕ → ℕ → ℝ) : ℕ → ℝ :=
  fun i => (∑ o ∈ Finset.range nOut, W o i) / (nOut : ℝ)

/-- weight - weight.mean(dim=0, keepdim=True) (line 129). -/
def centerW (nOut : ℕ) (W : ℕ → ℕ → ℝ) : ℕ → ℕ → ℝ :=
  fun o i => W o i - colMean nOut W i

/-- The L2 norm of column i of W taken over the output dimension (dim 0). -/
def colNorm (nOut : ℕ) (W : ℕ → ℕ → ℝ) : ℕ → ℝ :=
  fun i => Real.sqrt (∑ o ∈ Finset.range nOut, W o i ^ 2)

/-- F.normalize(weight, p=2, dim=0) (line 130): each column is divided by
max(its L2 norm over dim 0, eps). -/
def l2normalizeCols (nOut : ℕ) (eps : ℝ) (W : ℕ → ℕ → ℝ) : ℕ → ℕ → ℝ :=
  fun o i => W o i / max (colNorm nOut W i) eps

/-- The effective weight of NormedLinear.forward (lines 128-131): the weight is
mean-centered over dim 0, L2-normalised over dim 0, and scaled by the learnable
scalar self.scale. -/
def NormedLinear.effectiveWeight (nOut : ℕ) (scale : ℝ) (W : ℕ → ℕ → ℝ) : ℕ → ℕ → ℝ :=
  fun o i => scale * l2normalizeCols nOut normalizeEps (centerW nOut W) o i

/-- NormedLinear.forward (lines 128-131): F.linear with the effective weight and the
layer bias. -/
def NormedLinear.forward (nOut nIn : ℕ) (scale : ℝ) (W : ℕ → ℕ → ℝ) (b : Vec) (x : Vec) :
    Vec :=
  linearFwd nIn (NormedLinear.effectiveWeight nOut scale W) b x

/-- The feed-forward variant named by the configuration's mlp_class field. -/
inductive MLPClass
  | gptNeoxMLP : MLPClass
  | llamaMLP : MLPClass
deriving DecidableEq

/-- Modelled from the spec: the hyperparameter bundle of src/config.py, which is not
under src/; fields are those quant_model.py reads plus those listed in spec section 3.
condense is the position-condensing ratio. -/
structure Config where
  n_embd : ℕ
  n_head : ℕ
  n_query_groups : ℕ
  head_size : ℕ
  n_layer : ℕ
  intermediate_size : ℕ
  block_size : ℕ
  padded_vocab_size : ℕ
  bias : Bool
  parallel_residual : Bool
  shared_attention_norm : Bool
  rotary_percentage : ℚ
  condense : ℕ
  norm_eps : ℝ
  mlp_class : MLPClass

/-- n_elem = int(self.config.rotary_percentage * self.config.head_size) (line 237). -/
def Config.ropeNElem (c : Config) : ℕ := (c.rotary_percentage * c.head_size).floor.toNat

/-- q_per_kv = self.config.n_head // self.config.n_query_groups (line 344). -/
def Config.qPerKv (c : Config) : ℕ := c.n_head / c.n_query_groups

/-- theta of build_rope_cache (line 497): for frequency index j,
1.0 / base ** ((2 j) / n_elem) with base = 10000, the exponent a Python float. -/
def ropeTheta (nElem : ℕ) (j : ℕ) : ℝ :=
  1 / Real.rpow 10000 ((2 * j : ℝ) / (nElem : ℝ))

/-- idx_theta of build_rope_cache (lines 500-503): position i is condensed by the
ratio and multiplied with theta j. -/
def ropeAngle (cfg : Config) (t j : ℕ) : ℝ :=
  ((t : ℝ) / (cfg.condense : ℝ)) * ropeTheta cfg.ropeNElem j

/-- Row t of the cosine rope table (line 505).  The bfloat16 downcast of lines
508-512 is not represented in this exact-real model. -/
def ropeCos (cfg : Config) (t : ℕ) : Vec := fun j => Real.cos (ropeAngle cfg t j)

/-- Row t of the sine rope table (line 505). -/
def ropeSin (cfg : Config) (t : ℕ) : Vec := fun j => Real.sin (ropeAngle cfg t j)

/-- Modelled from the spec: apply_rotary_emb_func is imported from the repository's
fused_rotary_embedding module, which is not under src/.  Spec section 4.4: only the
first nElem channels are rotated; with x1, x2 the two halves of the rotary slice,
rotated = concat(-x2, x1), and the result is x*cos + rotated*sin with the cos/sin
rows (each of length nElem/2) repeated over both halves (cos.repeat(1,2) in the
reference apply_rope of lines 516-522); the remaining channels pass through. -/
def applyRotaryEmb (nElem : ℕ) (cosRow sinRow : Vec) (x : Vec) : Vec :=
  fun j =>
    if j < nElem then
      x j * cosRow (j % (nElem / 2)) +
        (if j < nElem / 2 then -x (j + nElem / 2) else x (j - nElem / 2)) *
          sinRow (j % (nElem / 2))
    else x j

/-- Parameters of one CausalSelfAttention module (lines 312-327): the packed qkv
linear self.attn, the four ParamHeaveside encoders (each an embed_scale alpha, here
taken already initialised per the AlphaInit life cycle, and a zero_point beta), and
the NormedLinear output projection self.proj. -/
structure AttnParams where
  attnW : ℕ → ℕ → ℝ
  attnB : Vec
  eInScale : Vec
  eInZero : Vec
  eQScale : Vec
  eQZero : Vec
  eKScale : Vec
  eKZero : Vec
  eOutScale : Vec
  eOutZero : Vec
  projW : ℕ → ℕ → ℝ
  projB : Vec
  projScale : ℝ

/-- Parameters of one GptNeoxMLP module (lines 448-454): act1/act2 are ParamHeaveside
instances (initialised alpha a1/a2, zero_point b1/b2), fc the expansion linear, proj
the NormedLinear output projection. -/
structure MLPParams where
  fcW : ℕ → ℕ → ℝ
  fcB : Vec
  a1 : Vec
  b1 : Vec
  a2 : Vec
  b2 : Vec
  projW : ℕ → ℕ → ℝ
  projB : Vec
  projScale : ℝ

/-- Parameters of one transformer Block (lines 266-276): MyNorm carries no
parameters, so a block is its attention and its (hard-coded GptNeoxMLP) mlp. -/
structure BlockParams where
  attn : AttnParams
  mlp : MLPParams

/-- Parameters of the full QuantGPT model (lines 133-152): token embedding table
wte (token index to embedding row), the bias-free lm_head, and the blocks. -/
structure GPTParams where
  wte : ℕ → Vec
  lmHeadW : ℕ → ℕ → ℝ
  blocks : List BlockParams

/-- A per-layer key/value cache: (sequence slot, query group, channel). -/
abbrev KVCache := (ℕ → ℕ → Vec) × (ℕ → ℕ → Vec)

/-- The all-zero cache build_kv_caches fills in (lines 248-263). -/
def kvZero : KVCache := (fun _ _ => zeroVec, fun _ _ => zeroVec)

/-- qkv = self.attn(encoder_input(x)) for one position (lines 340-341). -/
def attnQKVRow (cfg : Config) (p : AttnParams) (x : Vec) : Vec :=
  linearFwd cfg.n_embd p.attnW p.attnB (heaviside p.eInScale p.eInZero x)

/-- Query head h of the packed qkv row, before rope (lines 346-359): the flat view
(B, T, n_query_groups, q_per_kv + 2, head_size) puts group g, slot s, channel c at
flat index (g * (q_per_kv + 2) + s) * head_size + c; the split takes slots
0..q_per_kv-1 as queries and q.reshape(B, T, -1, head_size) enumerates head
h = g * q_per_kv + r. -/
def qRowRaw (cfg : Config) (p : AttnParams) (x : Vec) (h : ℕ) : Vec :=
  fun c =>
    attnQKVRow cfg p x
      (((h / cfg.qPerKv) * (cfg.qPerKv + 2) + h % cfg.qPerKv) * cfg.head_size + c)

/-- Key of query group g of the packed qkv row, before rope (slot q_per_kv). -/
def kRowRaw (cfg : Config) (p : AttnParams) (x : Vec) (g : ℕ) : Vec :=
  fun c => attnQKVRow cfg p x ((g * (cfg.qPerKv + 2) + cfg.qPerKv) * cfg.head_size + c)

/-- Value of query group g of the packed qkv row (slot q_per_kv + 1, lines 350, 363). -/
def vRow (cfg : Config) (p : AttnParams) (x : Vec) (g : ℕ) : Vec :=
  fun c =>
    attnQKVRow cfg p x ((g * (cfg.qPerKv + 2) + cfg.qPerKv + 1) * cfg.head_size + c)

/-- Query head h after rope and the encoder_q spiking activation (lines 369-371). -/
def qRow (cfg : Config) (p : AttnParams) (cosRow sinRow : Vec) (x : Vec) (h : ℕ) : Vec :=
  heaviside p.eQScale p.eQZero
    (applyRotaryEmb cfg.ropeNElem cosRow sinRow (qRowRaw cfg p x h))

/-- Key of group g after rope and the encoder_k spiking activation (lines 370-372). -/
def kRow (cfg : Config) (p : AttnParams) (cosRow sinRow : Vec) (x : Vec) (g : ℕ) : Vec :=
  heaviside p.eKScale p.eKZero
    (applyRotaryEmb cfg.ropeNElem cosRow sinRow (kRowRaw cfg p x g))

/-- cache.index_copy_(1, pos, rows) (lines 392-393): sequence slot pos[m] receives
row m of the source; every other slot keeps its cached content. -/
def indexCopy (pos : List ℕ) (cache : ℕ → ℕ → Vec) (rows : ℕ → ℕ → Vec) :
    ℕ → ℕ → Vec :=
  fun s => if s ∈ pos then rows (pos.indexOf s) else cache s

/-- torch.roll(cache, -1, dims=1) (lines 389-390) on the length-msl sequence axis:
a circular shift moving slot s+1 into slot s (and slot 0 to the end, where it is
immediately overwritten by the subsequent index_copy_). -/
def rollLeft (msl : ℕ) (cache : ℕ → ℕ → Vec) : ℕ → ℕ → Vec :=
  fun s => cache ((s + 1) % msl)

/-- The kv-cache update of CausalSelfAttention.forward (lines 382-394): if the last
write position input_pos[-1] reaches max_seq_length, input_pos is replaced by the
single slot max_seq_length - 1, both caches are rolled one slot to the left and the
new row is written at the last slot; otherwise the new rows are index-copied at
input_pos.  (An empty input_pos is an error in torch; getLastD only gives the
condition a conventional value there.) -/
def kvCacheUpdate (msl : ℕ) (pos : List ℕ) (ck cv : ℕ → ℕ → Vec)
    (kNew vNew : ℕ → ℕ → Vec) : KVCache :=
  if msl ≤ pos.getLastD 0 then
    (indexCopy [msl - 1] (rollLeft msl ck) kNew, indexCopy [msl - 1] (rollLeft msl cv) vNew)
  else
    (indexCopy pos ck kNew, indexCopy pos cv vNew)

/-- y.reshape(B, T, C) followed by encoder_output and self.proj (lines 398-402),
for one position: head outputs are laid side by side (channel e of the merged row is
channel e % head_size of head e / head_size), passed through the spiking activation
and the NormedLinear(n_embd, n_embd) projection. -/
def attnMergeProj (cfg : Config) (p : AttnParams) (yRow : ℕ → Vec) : Vec :=
  NormedLinear.forward cfg.n_embd cfg.n_embd p.projScale p.projW p.projB
    (heaviside p.eOutScale p.eOutZero (fun e => yRow (e / cfg.head_size) (e % cfg.head_size)))

/-- CausalSelfAttention.forward (lines 329-404), batch elided.  x is the input
sequence (position to embedding row), T its length, cos/sin the rope rows for each
input row (already index-selected by the caller in decode mode).  Without a cache the
attention runs over the T input positions; with a cache the new key/value rows are
written through kvCacheUpdate and the attention runs over the max_seq_length cache
slots.  The updated cache is returned as in lines 392-394. -/
def CausalSelfAttention.forward (cfg : Config) (p : AttnParams) (x : ℕ → Vec) (T : ℕ)
    (cos sin : ℕ → Vec) (max_seq_length : ℕ) (mask : Option AttnMask)
    (input_pos : Option (List ℕ)) (kv_cache : Option KVCache) :
    (ℕ → Vec) × Option KVCache :=
  let q : ℕ → ℕ → Vec := fun t h => qRow cfg p (cos t) (sin t) (x t) h
  let k0 : ℕ → ℕ → Vec := fun t g => kRow cfg p (cos t) (sin t) (x t) g
  let v0 : ℕ → ℕ → Vec := fun t g => vRow cfg p (x t) g
  match kv_cache with
  | none =>
      let y := scaled_dot_product_attention cfg.head_size cfg.n_head cfg.n_query_groups
        T q k0 v0 mask
      (fun t => attnMergeProj cfg p (y t), none)
  | some kv =>
      let upd := kvCacheUpdate max_seq_length (input_pos.getD []) kv.1 kv.2 k0 v0
      let y := scaled_dot_product_attention cfg.head_size cfg.n_head cfg.n_query_groups
        max_seq_length q upd.1 upd.2 mask
      (fun t => attnMergeProj cfg p (y t), some upd)

/-- GptNeoxMLP.forward (lines 456-460): act1 (sized n_embd), the fc expansion to
intermediate_size, act2 (sized intermediate_size), then the NormedLinear projection
back to n_embd. -/
def GptNeoxMLP.forward (cfg : Config) (p : MLPParams) (x : Vec) : Vec :=
  NormedLinear.forward cfg.n_embd cfg.intermediate_size p.projScale p.projW p.projB
    (heaviside p.a2 p.b2 (linearFwd cfg.n_embd p.fcW p.fcB (heaviside p.a1 p.b1 x)))

/-- torch.nn.functional.silu. -/
def silu (x : ℝ) : ℝ := x * (1 / (1 + Real.exp (-x)))

/-- SwiGLU.forward (lines 479-485), the dormant gated feed-forward variant:
w3(silu(w1 x) * (w2 x)). -/
def SwiGLU.forward (nEmbd nInter : ℕ) (w1W : ℕ → ℕ → ℝ) (w1B : Vec)
    (w2W : ℕ → ℕ → ℝ) (w2B : Vec) (w3W : ℕ → ℕ → ℝ) (w3B : Vec) (x : Vec) : Vec :=
  linearFwd nInter w3W w3B
    (fun i => silu (linearFwd nEmbd w1W w1B x i) * linearFwd nEmbd w2W w2B x i)

/-- MyNorm.forward (lines 537-545): the active configuration returns x unchanged
(every normalisation variant in the body is commented out). -/
def MyNorm.forward (x : ℕ → Vec) : ℕ → Vec := x

/-- Block.__init__ (lines 266-276) hard-codes self.mlp = GptNeoxMLP(config) at line
275; the config.mlp_class selection at line 274 is commented out, so every block's
feed-forward sublayer is the spiking GptNeoxMLP regardless of the configuration. -/
def Block.mlpVariant (_cfg : Config) : MLPClass := MLPClass.gptNeoxMLP

/-- Block.forward (lines 278-310): norm_1 and norm_2 are identity MyNorms; the
attention runs first; the parallel-residual path adds x + h + mlp(n_2), the
sequential path adds h then mlp, and the sequential path combined with
shared_attention_norm raises NotImplementedError. -/
def Block.forward (cfg : Config) (bp : BlockParams) (x : ℕ → Vec) (T : ℕ)
    (cos sin : ℕ → Vec) (max_seq_length : ℕ) (mask : Option AttnMask)
    (input_pos : Option (List ℕ)) (kv_cache : Option KVCache) :
    Except String ((ℕ → Vec) × Option KVCache) :=
  let n1 := MyNorm.forward x
  let r := CausalSelfAttention.forward cfg bp.attn n1 T cos sin max_seq_length mask
    input_pos kv_cache
  if cfg.parallel_residual then
    let n2 := if cfg.shared_attention_norm then n1 else MyNorm.forward x
    .ok (fun t c => x t c + r.1 t c + GptNeoxMLP.forward cfg bp.mlp (n2 t) c, r.2)
  else
    if cfg.shared_attention_norm then
      .error "No checkpoint amongst the ones we support uses this configuration (non-parallel residual and shared attention norm)."
    else
      .ok (fun t c =>
          (x t c + r.1 t c) +
            GptNeoxMLP.forward cfg bp.mlp (MyNorm.forward (fun u d => x u d + r.1 u d) t) c,
        r.2)

/-- build_mask_cache (lines 244-246): a lower-triangular boolean matrix; entry (i, j)
allows key position j when j ≤ i. -/
def buildMaskCache (_cfg : Config) : ℕ → ℕ → Bool := fun i j => j ≤ i

/-- The full-sequence layer loop of QuantGPT.forward (lines 217-219): each block
consumes the previous hidden state; no mask, positions or caches are passed. -/
def runLayersFull (cfg : Config) (cos sin : ℕ → Vec) (T msl : ℕ) :
    List BlockParams → (ℕ → Vec) → Except String (ℕ → Vec)
  | [], x => .ok x
  | b :: bs, x =>
      (Block.forward cfg b x T cos sin msl none none none).bind fun r =>
        runLayersFull cfg cos sin T msl bs r.1

/-- The decode-mode layer loop of QuantGPT.forward (lines 221-224): each block
receives its per-layer cache and returns the updated one. -/
def runLayersDecode (cfg : Config) (cos sin : ℕ → Vec) (T msl : ℕ) (mask : AttnMask)
    (pos : List ℕ) :
    List BlockParams → (ℕ → Vec) → List KVCache →
      Except String ((ℕ → Vec) × List KVCache)
  | [], x, _ => .ok (x, [])
  | _ :: _, _, [] => .error "kv cache list exhausted"
  | b :: bs, x, c :: cs =>
      (Block.forward cfg b x T cos sin msl (some mask) (some pos) (some c)).bind fun r =>
        match r.2 with
        | none => .error "kv cache dropped"
        | some c2 =>
            (runLayersDecode cfg cos sin T msl mask pos bs r.1 cs).bind fun r2 =>
              .ok (r2.1, c2 :: r2.2)

/-- QuantGPT.forward (lines 178-228), batch elided, with the kv-cache list as
explicit state (self.kv_caches; the rope and mask caches are deterministic in the
config, so rebuilding them every call is observationally identical to caching them).
idx is the token list, T its length; max_seq_length defaults to block_size.  The
three asserts of lines 188-192 become descriptive errors, in source order.  In decode
mode the rope rows and the causal mask rows are index-selected at input_pos (lines
205-208; the mask column slice [:, :, :, :max_seq_length] is realised by the
attention reading only key slots below max_seq_length), the kv caches are built
zero-filled on first use (line 222, build_kv_caches), and the final identity ln_f and
the bias-free lm_head produce the logits (lines 226-228). -/
def gptForward (cfg : Config) (p : GPTParams) (st : List KVCache) (idx : List ℕ)
    (max_seq_length : Option ℕ) (input_pos : Option (List ℕ)) :
    Except String ((ℕ → Vec) × List KVCache) :=
  let T := idx.length
  let msl := max_seq_length.getD cfg.block_size
  let x0 : ℕ → Vec := fun t => p.wte (idx.getD t 0)
  match input_pos with
  | some pos =>
      if ¬ T ≤ msl then
        .error "Cannot forward sequence: max seq length exceeded"
      else if ¬ msl ≤ cfg.block_size then
        .error "Cannot attend: block size exceeded"
      else if ¬ T ≤ cfg.block_size then
        .error "Cannot forward sequence: block size exceeded"
      else
        let cosSel : ℕ → Vec := fun t => ropeCos cfg (pos.getD t 0)
        let sinSel : ℕ → Vec := fun t => ropeSin cfg (pos.getD t 0)
        let mask : AttnMask := .boolMask (fun t j => buildMaskCache cfg (pos.getD t 0) j)
        let caches := if st.isEmpty then List.replicate p.blocks.length kvZero else st
        (runLayersDecode cfg cosSel sinSel T msl mask pos p.blocks x0 caches).bind
          fun r =>
            .ok (fun t => linearFwd cfg.n_embd p.lmHeadW zeroVec (MyNorm.forward r.1 t),
              r.2)
  | none =>
      if ¬ msl ≤ cfg.block_size then
        .error "Cannot attend: block size exceeded"
      else if ¬ T ≤ cfg.block_size then
        .error "Cannot forward sequence: block size exceeded"
      else
        (runLayersFull cfg (ropeCos cfg) (ropeSin cfg) T msl p.blocks x0).bind fun xf =>
          .ok (fun t => linearFwd cfg.n_embd p.lmHeadW zeroVec (MyNorm.forward xf t), st)

/-- One-token-at-a-time incremental decoding: starting from freshly reset caches
(reset_cache clears self.kv_caches to the empty list), step i feeds token i with
input_pos = [i] and max_seq_length = n, collecting the single logits row of each
step. -/
def decodeRun (cfg : Config) (p : GPTParams) (tok : ℕ → ℕ) (n : ℕ) :
    ℕ → Except String (List Vec × List KVCache)
  | 0 => .ok ([], [])
  | i + 1 =>
      (decodeRun cfg p tok n i).bind fun r =>
        (gptForward cfg p r.2 [tok i] (some n) (some [i])).bind fun r2 =>
          .ok (r.1 ++ [fun vch => r2.1 0 vch], r2.2)

/-- One action of the weight-initialisation policy. -/
inductive InitAct
  | normalDist : ℝ → ℝ → InitAct
  | zeros : InitAct
deriving DecidableEq

/-- The general standard deviation math.sqrt(2.0 / 5 / n_embd) of _init_weights
(lines 158, 162). -/
def gptNeoxStd (cfg : Config) : ℝ := Real.sqrt (2 / 5 / (cfg.n_embd : ℝ))

/-- The override standard deviation 1 / math.sqrt(n_embd) / n_layer of the
projection re-draw (line 168). -/
def projOverrideStd (cfg : Config) : ℝ :=
  1 / Real.sqrt (cfg.n_embd : ℝ) / (cfg.n_layer : ℝ)

/-- The parameter sites of the constructed QuantGPT model that _init_weights can
touch (one representative per kind; every layer is identical). -/
inductive ParamSite
  | wteWeight
  | lmHeadWeight
  | attnLinWeight
  | attnLinBias
  | attnProjWeight
  | attnProjBias
  | mlpFcWeight
  | mlpFcBias
  | mlpProjWeight
  | mlpProjBias
  | spikeScale
  | spikeZero
  | normScale
deriving DecidableEq

/-- QuantGPT._init_weights (lines 154-168) applied through Module.apply (children
before parents): the list of initialisation actions that touch each parameter site,
in execution order.  Embedding and Linear weights (NormedLinear included, being an
nn.Linear) draw normal(0, sqrt(2/5/n_embd)); biases are zeroed; the override loop at
lines 166-168 re-draws normal(0, 1/sqrt(n_embd)/n_layer) for the exact parameter
names proj.weight on a LLaMAMLP module, w3.weight on a SwiGLU module and proj.weight
on a CausalSelfAttention module.  The constructed blocks hard-code GptNeoxMLP (line
275), whose proj.weight matches none of these, so the only override hit in the model
is the attention output projection (visited after its child NormedLinear received the
general draw).  ParamHeaveside's zero_point/embed_scale and NormedLinear's scale
belong to no matched isinstance or name and are left untouched. -/
def initTrace (cfg : Config) : ParamSite → List InitAct
  | .wteWeight => [.normalDist 0 (gptNeoxStd cfg)]
  | .lmHeadWeight => [.normalDist 0 (gptNeoxStd cfg)]
  | .attnLinWeight => [.normalDist 0 (gptNeoxStd cfg)]
  | .attnLinBias => [.zeros]
  | .attnProjWeight => [.normalDist 0 (gptNeoxStd cfg), .normalDist 0 (projOverrideStd cfg)]
  | .attnProjBias => [.zeros]
  | .mlpFcWeight => [.normalDist 0 (gptNeoxStd cfg)]
  | .mlpFcBias => [.zeros]
  | .mlpProjWeight => [.normalDist 0 (gptNeoxStd cfg)]
  | .mlpProjBias => [.zeros]
  | .spikeScale => []
  | .spikeZero => []
  | .normScale => []

/-- The distribution a parameter site ends up with: the last action applied to it. -/
def finalInit (cfg : Config) (s : ParamSite) : Option InitAct := (initTrace cfg s).getLast?

/-! Denotations used to relate the two operating modes of the model.  These are not
translations of further source code; they name the values the source computes so
that the incremental-decode and full-sequence paths can be compared. -/

/-- The key rows a layer computes for the input sequence x (kRow at each position,
with the rope row of that position). -/
def layerKs (cfg : Config) (p : AttnParams) (cos sin : ℕ → Vec) (x : ℕ → Vec) :
    ℕ → ℕ → Vec :=
  fun s g => kRow cfg p (cos s) (sin s) (x s) g

/-- The value rows a layer computes for the input sequence x. -/
def layerVs (cfg : Config) (p : AttnParams) (x : ℕ → Vec) : ℕ → ℕ → Vec :=
  fun s g => vRow cfg p (x s) g

/-- A cache holding the given rows at slots below i and zeros (its build_kv_caches
fill) everywhere else. -/
def cacheAt (i : ℕ) (rows : ℕ → ℕ → Vec) : ℕ → ℕ → Vec :=
  fun s g c => if s < i then rows s g c else 0

/-- The value Block.forward computes in full-sequence mode (no mask, no positions,
no cache) on an input sequence of length T, for a configuration that passes the
residual check. -/
def blockFull (cfg : Config) (bp : BlockParams) (cos sin : ℕ → Vec) (T : ℕ)
    (x : ℕ → Vec) : ℕ → Vec :=
  let h := (CausalSelfAttention.forward cfg bp.attn x T cos sin 0 none none none).1
  if cfg.parallel_residual then
    fun t c => x t c + h t c + GptNeoxMLP.forward cfg bp.mlp (x t) c
  else
    fun t c => (x t c + h t c) + GptNeoxMLP.forward cfg bp.mlp (fun d => x t d + h t d) c

/-- The full-sequence composition of a list of blocks. -/
def layersFull (cfg : Config) (cos sin : ℕ → Vec) (T : ℕ) :
    List BlockParams → (ℕ → Vec) → ℕ → Vec
  | [], x => x
  | b :: bs, x => layersFull cfg cos sin T bs (blockFull cfg b cos sin T x)

/-- The per-layer cache contents after the first i one-token decode steps: layer
by layer, the keys/values of the full-sequence hidden states at slots below i. -/
def expCaches (cfg : Config) (cos sin : ℕ → Vec) (T i : ℕ) :
    List BlockParams → (ℕ → Vec) → List KVCache
  | [], _ => []
  | b :: bs, x =>
      (cacheAt i (layerKs cfg b.attn cos sin x), cacheAt i (layerVs cfg b.attn x)) ::
        expCaches cfg cos sin T i bs (blockFull cfg b cos sin T x)

/-- The logits of a full-sequence gptForward call on the token list idx. -/
def fullLogitsFun (cfg : Config) (p : GPTParams) (idx : List ℕ) : ℕ → Vec :=
  fun t =>
    linearFwd cfg.n_embd p.lmHeadW zeroVec
      (layersFull cfg (ropeCos cfg) (ropeSin cfg) idx.length p.blocks
        (fun u => p.wte (idx.getD u 0)) t)

/-! Vocabulary for the per-row property of spec section 8 on NormedLinear, and
concrete fixtures used by counterexamples and witnesses. -/

/-- The mean of row o of W over its first nIn columns. -/
def rowMean (nIn : ℕ) (W : ℕ → ℕ → ℝ) (o : ℕ) : ℝ :=
  (∑ i ∈ Finset.range nIn, W o i) / (nIn : ℝ)

/-- The L2 norm of row o of W over its first nIn columns. -/
def rowNorm (nIn : ℕ) (W : ℕ → ℕ → ℝ) (o : ℕ) : ℝ :=
  Real.sqrt (∑ i ∈ Finset.range nIn, W o i ^ 2)

/-- A concrete 4-row weight matrix: every column is (3, 3, -3, -3). -/
def cexW : ℕ → ℕ → ℝ := fun o _ => if o ≤ 1 then 3 else -3

/-- A concrete small configuration (block size 1, 10 embedding channels, 2 layers). -/
def cfgA : Config where
  n_embd := 10
  n_head := 1
  n_query_groups := 1
  head_size := 1
  n_layer := 2
  intermediate_size := 1
  block_size := 1
  padded_vocab_size := 1
  bias := false
  parallel_residual := true
  shared_attention_norm := false
  rotary_percentage := 1
  condense := 1
  norm_eps := 0
  mlp_class := MLPClass.gptNeoxMLP

/-- cfgA with the gated MLP selected by the configuration. -/
def cfgB : Config := { cfgA with mlp_class := MLPClass.llamaMLP }

/-- cfgA with the unsupported residual combination (sequential + shared norm). -/
def cfgC : Config := { cfgA with parallel_residual := false, shared_attention_norm := true }

/-- All-zero attention parameters. -/
def attnZero : AttnParams where
  attnW := fun _ _ => 0
  attnB := zeroVec
  eInScale := zeroVec
  eInZero := zeroVec
  eQScale := zeroVec
  eQZero := zeroVec
  eKScale := zeroVec
  eKZero := zeroVec
  eOutScale := zeroVec
  eOutZero := zeroVec
  projW := fun _ _ => 0
  projB := zeroVec
  projScale := 0

/-- All-zero MLP parameters. -/
def mlpZero : MLPParams where
  fcW := fun _ _ => 0
  fcB := zeroVec
  a1 := zeroVec
  b1 := zeroVec
  a2 := zeroVec
  b2 := zeroVec
  projW := fun _ _ => 0
  projB := zeroVec
  projScale := 0

/-- An all-zero block. -/
def blockZero : BlockParams := ⟨attnZero, mlpZero⟩

/-- Model parameters with no blocks and zero weights. -/
def gptEmpty : GPTParams := ⟨fun _ => zeroVec, fun _ _ => 0, []⟩

/-- A cache whose slot s holds the constant value s. -/
def cacheRamp : ℕ → ℕ → Vec := fun s _ _ => (s : ℝ)

/-- An uninitialised one-channel AlphaInit state. -/
def alphaU : AlphaInit := ⟨fun _ => 1, 1, false⟩

/-- An initialised one-channel AlphaInit state. -/
def alphaI : AlphaInit := ⟨fun _ => 1, 1, true⟩

/-! Helper lemmas. -/

theorem reluB_addBias_fin (s r : ℝ) : reluB (addBias s (.fin r)) = max (s + r) 0 := rfl

theorem reluB_addBias_neginf (s : ℝ) : reluB (addBias s .neginf) = 0 := rfl

/-- With no mask, the attention output is the causally-masked rectified-score
average: weight relu(q·k / head_size) at key positions j ≤ i, exactly zero after. -/
theorem sdpa_none_eq (headSize Hq Hkv S : ℕ) (q k v : ℕ → ℕ → Vec) (i h c : ℕ) :
    scaled_dot_product_attention headSize Hq Hkv S q k v none i h c =
      ∑ j ∈ Finset.range S,
        (if j ≤ i then
            relu (dot headSize (q i h) (k j (h / (Hq / Hkv))) * (1 / (headSize : ℝ)))
          else 0) *
          v j (h / (Hq / Hkv)) c := by
  unfold scaled_dot_product_attention
  refine Finset.sum_congr rfl fun j _ => ?_
  by_cases hj : j ≤ i
  · simp [attnBias, hj, addBias, reluB]
  · simp [attnBias, hj, addBias, reluB]

/-- With a boolean mask, the source's bias stays all zeros, so every key position
contributes its rectified score, masked or not. -/
theorem sdpa_boolmask_eq (headSize Hq Hkv S : ℕ) (q k v : ℕ → ℕ → Vec)
    (m : ℕ → ℕ → Bool) (i h c : ℕ) :
    scaled_dot_product_attention headSize Hq Hkv S q k v (some (.boolMask m)) i h c =
      ∑ j ∈ Finset.range S,
        relu (dot headSize (q i h) (k j (h / (Hq / Hkv))) * (1 / (headSize : ℝ))) *
          v j (h / (Hq / Hkv)) c := by
  unfold scaled_dot_product_attention
  refine Finset.sum_congr rfl fun j _ => ?_
  simp [attnBias, addBias, reluB]

/-! Claim theorems. -/

/-- C1: for every query, key and value tensor, scaled_dot_product_attention with no
mask computes the output as weights times V where the weights are
relu((q·k) * (1/head_size) + bias) with no softmax, the bias being 0 at key
positions j ≤ i and float("-inf") strictly after the query position (so those
weights are exactly zero). -/
theorem attention_is_rectified_causal (headSize Hq Hkv S : ℕ) (q k v : ℕ → ℕ → Vec)
    (i h c : ℕ) :
    scaled_dot_product_attention headSize Hq Hkv S q k v none i h c =
      ∑ j ∈ Finset.range S,
        (if j ≤ i then
            relu (dot headSize (q i h) (k j (h / (Hq / Hkv))) * (1 / (headSize : ℝ)))
          else 0) *
          v j (h / (Hq / Hkv)) c :=
  sdpa_none_eq headSize Hq Hkv S q k v i h c

/-- C2 (refuting evaluation): with a boolean mask that disallows the only position,
the attention weight is relu(1·1·1) = 1 and the output is 1, not the exact zero the
claim requires: the source fills the mask tensor in place instead of attn_bias and
discards the result, so the boolean mask never reaches the bias. -/
theorem bool_mask_bias_dropped :
    scaled_dot_product_attention 1 1 1 1 (fun _ _ _ => 1) (fun _ _ _ => 1)
      (fun _ _ _ => 1) (some (AttnMask.boolMask fun _ _ => false)) 0 0 0 = 1 := by
  rw [sdpa_boolmask_eq]
  norm_num [dot, relu]

/-- C4: the spiking activation's forward output is always 0 or the (possibly just
initialised) per-channel alpha; grad_x is g·alpha·s / (pi·((s·(x-beta))² + 1)),
grad_beta its negation, and the batch-reduced grad_alpha sums
g·((1/pi)·arctan(x-beta) + 1/2) over the batch rows. -/
theorem spiking_forward_binary_and_surrogate_grads (m : ℕ) (x g : ℕ → Vec)
    (alpha : AlphaInit) (beta : Vec) (scale : ℝ) (a : Vec) :
    (∀ r c, (heavesideForward m x alpha beta).1 r c = 0 ∨
      (heavesideForward m x alpha beta).1 r c = (heavesideForward m x alpha beta).2.data c) ∧
    (∀ r c, heavesideGradInput scale a (fun r2 c2 => x r2 c2 - beta c2) g r c =
      g r c * a c * scale / (Real.pi * ((scale * (x r c - beta c)) ^ 2 + 1))) ∧
    (∀ r c, heavesideGradBeta scale a (fun r2 c2 => x r2 c2 - beta c2) g r c =
      -heavesideGradInput scale a (fun r2 c2 => x r2 c2 - beta c2) g r c) ∧
    (∀ c, heavesideGradAlphaSum m (fun r2 c2 => x r2 c2 - beta c2) g c =
      ∑ r ∈ Finset.range m, g r c * (1 / Real.pi * Real.arctan (x r c - beta c) + 1 / 2)) := by
  refine ⟨fun r c => ?_, fun r c => ?_, fun r c => ?_, fun c => ?_⟩
  · by_cases hrc : 0 < x r c - beta c
    · exact Or.inr (by simp only [heavesideForward]; rw [if_pos hrc])
    · exact Or.inl (by simp only [heavesideForward]; rw [if_neg hrc])
  · unfold heavesideGradInput
    have hd : ((scale * (x r c - beta c)) ^ 2 + 1) ≠ 0 := by positivity
    field_simp
    ring
  · unfold heavesideGradBeta heavesideGradInput; ring
  · unfold heavesideGradAlphaSum heavesideGradAlphaElem
    exact Finset.sum_congr rfl fun r _ => by ring

theorem cexW_colMean_zero (i : ℕ) : colMean 4 cexW i = 0 := by
  norm_num [colMean, cexW, Finset.sum_range_succ]

theorem cexW_center (o i : ℕ) : centerW 4 cexW o i = cexW o i := by
  simp [centerW, cexW_colMean_zero]

theorem cexW_colNorm (i : ℕ) : colNorm 4 (centerW 4 cexW) i = 6 := by
  have h : (∑ o ∈ Finset.range 4, centerW 4 cexW o i ^ 2) = 36 := by
    simp only [cexW_center]
    norm_num [cexW, Finset.sum_range_succ]
  rw [colNorm, h, show (36 : ℝ) = 6 ^ 2 by norm_num,
    Real.sqrt_sq (by norm_num : (0 : ℝ) ≤ 6)]

theorem cexW_normalized (o i : ℕ) :
    l2normalizeCols 4 normalizeEps (centerW 4 cexW) o i = cexW o i / 6 := by
  rw [l2normalizeCols, cexW_colNorm, cexW_center,
    max_eq_left (by norm_num [normalizeEps] : normalizeEps ≤ 6)]

/-- C5 (counterexample): for the weight whose columns are (3, 3, -3, -3), the
transformed weight before the scale is (1/2, 1/2, -1/2, -1/2) per column; its output
row 0 (a 1-column row) has mean 1/2 and L2 norm 1/2, so the transformed weight does
not have zero mean and unit L2 norm per output row. -/
theorem normed_weight_row_property_fails :
    rowMean 1 (l2normalizeCols 4 normalizeEps (centerW 4 cexW)) 0 ≠ 0 ∧
    rowNorm 1 (l2normalizeCols 4 normalizeEps (centerW 4 cexW)) 0 ≠ 1 := by
  have h0 : l2normalizeCols 4 normalizeEps (centerW 4 cexW) 0 0 = 1 / 2 := by
    rw [cexW_normalized]; norm_num [cexW]
  constructor
  · rw [rowMean, Finset.sum_range_one, h0]; norm_num
  · rw [rowNorm, Finset.sum_range_one, h0,
      show ((1 : ℝ) / 2) ^ 2 = (1 / 2) ^ 2 by norm_num,
      Real.sqrt_sq (by norm_num : (0 : ℝ) ≤ 1 / 2)]
    norm_num

/-- C5 (amended): NormedLinear.forward is the affine map with effective weight
scale · normalize(W - mean(W, dim 0), dim 0); the transformed weight before the
scale has zero mean along the output axis in every column, and unit L2 norm along
the output axis in every column whose centered norm is at least the F.normalize
epsilon. -/
theorem normed_weight_column_property (nOut nIn : ℕ) (hOut : 0 < nOut) (scale : ℝ)
    (W : ℕ → ℕ → ℝ) (b x : Vec) :
    NormedLinear.forward nOut nIn scale W b x =
      linearFwd nIn (fun o i => scale * l2normalizeCols nOut normalizeEps (centerW nOut W) o i)
        b x ∧
    (∀ i, colMean nOut (l2normalizeCols nOut normalizeEps (centerW nOut W)) i = 0) ∧
    (∀ i, normalizeEps ≤ colNorm nOut (centerW nOut W) i →
      colNorm nOut (l2normalizeCols nOut normalizeEps (centerW nOut W)) i = 1) := by
  have hnc : ((nOut : ℕ) : ℝ) ≠ 0 := Nat.cast_ne_zero.mpr hOut.ne'
  refine ⟨rfl, fun i => ?_, fun i hN => ?_⟩
  · have hz : (∑ o ∈ Finset.range nOut, centerW nOut W o i) = 0 := by
      unfold centerW
      rw [Finset.sum_sub_distrib, Finset.sum_const, Finset.card_range, nsmul_eq_mul,
        colMean, mul_div_cancel₀ _ hnc, sub_self]
    unfold colMean l2normalizeCols
    rw [← Finset.sum_div, hz, zero_div, zero_div]
  · have hNpos : 0 < colNorm nOut (centerW nOut W) i :=
      lt_of_lt_of_le (by norm_num [normalizeEps]) hN
    have hsq : (∑ o ∈ Finset.range nOut, centerW nOut W o i ^ 2) =
        colNorm nOut (centerW nOut W) i ^ 2 := by
      rw [colNorm, Real.sq_sqrt (Finset.sum_nonneg fun o _ => sq_nonneg _)]
    unfold colNorm l2normalizeCols
    rw [max_eq_left hN]
    simp only [div_pow, ← Finset.sum_div]
    rw [hsq]
    rw [div_self (pow_ne_zero 2 hNpos.ne'), Real.sqrt_one]

/-- Witness for the amended C5 theorem at the concrete fixture weight. -/
theorem normed_weight_column_property_ok :
    colMean 4 (l2normalizeCols 4 normalizeEps (centerW 4 cexW)) 0 = 0 ∧
    colNorm 4 (l2normalizeCols 4 normalizeEps (centerW 4 cexW)) 0 = 1 := by
  have h := normed_weight_column_property 4 1 (by norm_num) 1 cexW zeroVec zeroVec
  exact ⟨h.2.1 0, h.2.2 0 (by rw [cexW_colNorm]; norm_num [normalizeEps])⟩

/-- The cache CausalSelfAttention.forward returns in decode mode is exactly
kvCacheUpdate applied to the freshly computed key/value rows. -/
theorem attn_cache_snd (cfg : Config) (p : AttnParams) (x : ℕ → Vec) (T : ℕ)
    (cos sin : ℕ → Vec) (msl : ℕ) (mask : Option AttnMask) (pos : List ℕ)
    (ck cv : ℕ → ℕ → Vec) :
    (CausalSelfAttention.forward cfg p x T cos sin msl mask (some pos) (some (ck, cv))).2 =
      some (kvCacheUpdate msl pos ck cv (layerKs cfg p cos sin x)
        (layerVs cfg p x)) := rfl

/-- The hidden-state output of CausalSelfAttention.forward in decode mode, row by
row: the attention runs over the max_seq_length slots of the updated cache. -/
theorem attn_cache_fst (cfg : Config) (p : AttnParams) (x : ℕ → Vec) (T : ℕ)
    (cos sin : ℕ → Vec) (msl : ℕ) (mask : Option AttnMask) (pos : List ℕ)
    (ck cv : ℕ → ℕ → Vec) (t : ℕ) :
    (CausalSelfAttention.forward cfg p x T cos sin msl mask (some pos) (some (ck, cv))).1 t =
      attnMergeProj cfg p
        (scaled_dot_product_attention cfg.head_size cfg.n_head cfg.n_query_groups msl
          (fun u h => qRow cfg p (cos u) (sin u) (x u) h)
          (kvCacheUpdate msl pos ck cv (layerKs cfg p cos sin x) (layerVs cfg p x)).1
          (kvCacheUpdate msl pos ck cv (layerKs cfg p cos sin x) (layerVs cfg p x)).2
          mask t) := rfl

/-- The hidden-state output of CausalSelfAttention.forward without a cache, row by
row: the attention runs over the T input positions (max_seq_length is not used). -/
theorem attn_none_fst (cfg : Config) (p : AttnParams) (x : ℕ → Vec) (T : ℕ)
    (cos sin : ℕ → Vec) (msl : ℕ) (mask : Option AttnMask) (t : ℕ) :
    (CausalSelfAttention.forward cfg p x T cos sin msl mask none none).1 t =
      attnMergeProj cfg p
        (scaled_dot_product_attention cfg.head_size cfg.n_head cfg.n_query_groups T
          (fun u h => qRow cfg p (cos u) (sin u) (x u) h)
          (layerKs cfg p cos sin x) (layerVs cfg p x) mask t) := rfl

/-- Writing the key/value rows of step i into the expected cache of step i yields
the expected cache of step i+1 (no eviction fires since i < max_seq_length). -/
theorem kvUpdate_cacheAt (cfg : Config) (p : AttnParams) (cos sin X : ℕ → Vec)
    (n i : ℕ) (hi : i < n) (cosd sind : ℕ → Vec) (xd : ℕ → Vec)
    (hc : cosd 0 = cos i) (hsn : sind 0 = sin i) (hx : xd 0 = X i) :
    kvCacheUpdate n [i] (cacheAt i (layerKs cfg p cos sin X))
        (cacheAt i (layerVs cfg p X)) (layerKs cfg p cosd sind xd)
        (layerVs cfg p xd) =
      (cacheAt (i + 1) (layerKs cfg p cos sin X), cacheAt (i + 1) (layerVs cfg p X)) := by
  rw [kvCacheUpdate, if_neg (by simp; omega)]
  refine Prod.ext ?_ ?_
  · show indexCopy [i] _ _ = _
    funext s g c
    by_cases hs : s = i
    · subst hs
      rw [indexCopy, if_pos (List.mem_singleton.mpr rfl), List.indexOf_cons_self]
      show layerKs cfg p cosd sind xd 0 g c = cacheAt (s + 1) (layerKs cfg p cos sin X) s g c
      rw [cacheAt, if_pos (Nat.lt_succ_self s)]
      show kRow cfg p (cosd 0) (sind 0) (xd 0) g c = _
      rw [hc, hsn, hx]
      rfl
    · rw [indexCopy, if_neg (by simp [hs])]
      simp only [cacheAt]
      by_cases hlt : s < i
      · rw [if_pos hlt, if_pos (by omega)]
      · rw [if_neg hlt, if_neg (by omega)]
  · show indexCopy [i] _ _ = _
    funext s g c
    by_cases hs : s = i
    · subst hs
      rw [indexCopy, if_pos (List.mem_singleton.mpr rfl), List.indexOf_cons_self]
      show layerVs cfg p xd 0 g c = cacheAt (s + 1) (layerVs cfg p X) s g c
      rw [cacheAt, if_pos (Nat.lt_succ_self s)]
      show vRow cfg p (xd 0) g c = _
      rw [hx]
      rfl
    · rw [indexCopy, if_neg (by simp [hs])]
      simp only [cacheAt]
      by_cases hlt : s < i
      · rw [if_pos hlt, if_pos (by omega)]
      · rw [if_neg hlt, if_neg (by omega)]

/-- Decode row 0 over the step-(i+1) cache equals full-sequence row i: at key slots
j ≤ i the cached rows coincide with the full-sequence rows and both biases are zero;
at slots j > i the cache is zero-filled, so the rectified score relu(0) and the value
row are both zero, exactly like the -inf-masked full-sequence term. -/
theorem sdpa_decode_row_eq (headSize Hq Hkv n i : ℕ) (qd qf : ℕ → ℕ → Vec)
    (hq : qd 0 = qf i) (K V : ℕ → ℕ → Vec) (m : ℕ → ℕ → Bool) (h c : ℕ) :
    scaled_dot_product_attention headSize Hq Hkv n qd (cacheAt (i + 1) K)
        (cacheAt (i + 1) V) (some (.boolMask m)) 0 h c =
      scaled_dot_product_attention headSize Hq Hkv n qf K V none i h c := by
  rw [sdpa_boolmask_eq, sdpa_none_eq]
  refine Finset.sum_congr rfl fun j _ => ?_
  by_cases hji : j ≤ i
  · have hk : cacheAt (i + 1) K j (h / (Hq / Hkv)) = K j (h / (Hq / Hkv)) := by
      funext d; simp only [cacheAt]; exact if_pos (by omega)
    have hv : cacheAt (i + 1) V j (h / (Hq / Hkv)) = V j (h / (Hq / Hkv)) := by
      funext d; simp only [cacheAt]; exact if_pos (by omega)
    rw [hk, hv, hq, if_pos hji]
  · have hk : cacheAt (i + 1) K j (h / (Hq / Hkv)) = fun _ => 0 := by
      funext d; simp only [cacheAt]; exact if_neg (by omega)
    have hv : cacheAt (i + 1) V j (h / (Hq / Hkv)) = fun _ => 0 := by
      funext d; simp only [cacheAt]; exact if_neg (by omega)
    rw [hk, hv, if_neg hji]
    simp [dot, relu]

/-- One decode step of the attention module: starting from the expected cache of
step i, row 0 of the output equals row i of the full-sequence attention output and
the returned cache is the expected cache of step i+1. -/
theorem attn_decode_step (cfg : Config) (p : AttnParams) (cos sin X : ℕ → Vec)
    (n i : ℕ) (hi : i < n) (m : ℕ → ℕ → Bool) (xd cosd sind : ℕ → Vec)
    (hx : xd 0 = X i) (hc : cosd 0 = cos i) (hsn : sind 0 = sin i) :
    ((CausalSelfAttention.forward cfg p xd 1 cosd sind n (some (.boolMask m)) (some [i])
        (some (cacheAt i (layerKs cfg p cos sin X), cacheAt i (layerVs cfg p X)))).1 0 =
      (CausalSelfAttention.forward cfg p X n cos sin 0 none none none).1 i) ∧
    ((CausalSelfAttention.forward cfg p xd 1 cosd sind n (some (.boolMask m)) (some [i])
        (some (cacheAt i (layerKs cfg p cos sin X), cacheAt i (layerVs cfg p X)))).2 =
      some (cacheAt (i + 1) (layerKs cfg p cos sin X),
        cacheAt (i + 1) (layerVs cfg p X))) := by
  have hupd := kvUpdate_cacheAt cfg p cos sin X n i hi cosd sind xd hc hsn hx
  have hq : (fun h => qRow cfg p (cosd 0) (sind 0) (xd 0) h) =
      fun h => qRow cfg p (cos i) (sin i) (X i) h := by
    rw [hc, hsn, hx]
  constructor
  · rw [attn_cache_fst, attn_none_fst, hupd]
    exact congrArg (attnMergeProj cfg p)
      (funext fun h2 => funext fun c2 =>
        sdpa_decode_row_eq cfg.head_size cfg.n_head cfg.n_query_groups n i _ _ hq
          (layerKs cfg p cos sin X) (layerVs cfg p X) m h2 c2)
  · rw [attn_cache_snd, hupd]

/-- In full-sequence mode a block that passes the residual check returns blockFull
and no cache. -/
theorem block_full_ok (cfg : Config) (bp : BlockParams) (x : ℕ → Vec) (T : ℕ)
    (cos sin : ℕ → Vec) (msl : ℕ)
    (hres : cfg.parallel_residual = true ∨ cfg.shared_attention_norm = false) :
    Block.forward cfg bp x T cos sin msl none none none =
      .ok (blockFull cfg bp cos sin T x, none) := by
  by_cases hp : cfg.parallel_residual = true
  · simp only [Block.forward, MyNorm.forward, blockFull, ite_self]
    rw [if_pos hp, if_pos hp]
    rfl
  · have hsh : cfg.shared_attention_norm = false := hres.resolve_left hp
    simp only [Block.forward, MyNorm.forward, blockFull]
    rw [if_neg hp, if_neg hp, if_neg (by simp [hsh])]
    rfl

/-- The full-sequence layer loop returns the layersFull composition. -/
theorem run_layers_full_ok (cfg : Config) (cos sin : ℕ → Vec) (T msl : ℕ)
    (hres : cfg.parallel_residual = true ∨ cfg.shared_attention_norm = false) :
    ∀ (bs : List BlockParams) (x : ℕ → Vec),
      runLayersFull cfg cos sin T msl bs x = .ok (layersFull cfg cos sin T bs x)
  | [], x => rfl
  | b :: bs, x => by
    simp only [runLayersFull]
    rw [block_full_ok cfg b x T cos sin msl hres]
    exact run_layers_full_ok cfg cos sin T msl hres bs (blockFull cfg b cos sin T x)

/-- A full-sequence gptForward call within the block size returns the fullLogitsFun
logits and leaves the cache state untouched. -/
theorem gpt_full (cfg : Config) (p : GPTParams) (st : List KVCache) (idx : List ℕ)
    (hT : idx.length ≤ cfg.block_size)
    (hres : cfg.parallel_residual = true ∨ cfg.shared_attention_norm = false) :
    gptForward cfg p st idx none none = .ok (fullLogitsFun cfg p idx, st) := by
  simp only [gptForward, Option.getD]
  rw [if_neg (by simp), if_neg (by omega)]
  rw [run_layers_full_ok cfg (ropeCos cfg) (ropeSin cfg) idx.length cfg.block_size hres]
  rfl

/-- One decode step of a block: starting from the expected cache of step i, the
returned cache is the expected cache of step i+1 and row 0 of the output is row i
of blockFull. -/
theorem block_decode_step (cfg : Config) (bp : BlockParams) (cos sin X : ℕ → Vec)
    (n i : ℕ) (hi : i < n)
    (hres : cfg.parallel_residual = true ∨ cfg.shared_attention_norm = false)
    (m : ℕ → ℕ → Bool) (xd cosd sind : ℕ → Vec) (hx : xd 0 = X i)
    (hc : cosd 0 = cos i) (hsn : sind 0 = sin i) :
    ∃ x2, Block.forward cfg bp xd 1 cosd sind n (some (.boolMask m)) (some [i])
        (some (cacheAt i (layerKs cfg bp.attn cos sin X),
          cacheAt i (layerVs cfg bp.attn X))) =
      .ok (x2, some (cacheAt (i + 1) (layerKs cfg bp.attn cos sin X),
        cacheAt (i + 1) (layerVs cfg bp.attn X))) ∧
      x2 0 = blockFull cfg bp cos sin n X i := by
  obtain ⟨h1, h2⟩ := attn_decode_step cfg bp.attn cos sin X n i hi m xd cosd sind hx hc hsn
  by_cases hp : cfg.parallel_residual = true
  · simp only [Block.forward, MyNorm.forward, ite_self]
    rw [if_pos hp, h2]
    refine ⟨_, rfl, ?_⟩
    funext c
    simp only [blockFull, ite_self]
    rw [if_pos hp]
    show xd 0 c + _ + GptNeoxMLP.forward cfg bp.mlp (xd 0) c = _
    rw [hx, h1]
  · have hsh : cfg.shared_attention_norm = false := hres.resolve_left hp
    simp only [Block.forward, MyNorm.forward]
    rw [if_neg hp, if_neg (by simp [hsh]), h2]
    refine ⟨_, rfl, ?_⟩
    funext c
    simp only [blockFull]
    rw [if_neg hp]
    show xd 0 c + _ + GptNeoxMLP.forward cfg bp.mlp (fun d => xd 0 d + _) c = _
    rw [hx, h1]

/-- One decode step through the whole block stack: the caches advance from the
expected caches of step i to those of step i+1 and row 0 of the final hidden state
is row i of the full-sequence composition. -/
theorem layers_decode (cfg : Config) (cos sin : ℕ → Vec) (n i : ℕ) (hi : i < n)
    (hres : cfg.parallel_residual = true ∨ cfg.shared_attention_norm = false)
    (m : ℕ → ℕ → Bool) (cosd sind : ℕ → Vec) (hc : cosd 0 = cos i)
    (hsn : sind 0 = sin i) :
    ∀ (bs : List BlockParams) (X xd : ℕ → Vec), xd 0 = X i →
      ∃ xo, runLayersDecode cfg cosd sind 1 n (.boolMask m) [i] bs xd
          (expCaches cfg cos sin n i bs X) =
        .ok (xo, expCaches cfg cos sin n (i + 1) bs X) ∧
        xo 0 = layersFull cfg cos sin n bs X i
  | [], X, xd, hx => ⟨xd, rfl, by rw [hx]; rfl⟩
  | b :: bs, X, xd, hx => by
    obtain ⟨x2, hb, hx2⟩ :=
      block_decode_step cfg b cos sin X n i hi hres m xd cosd sind hx hc hsn
    obtain ⟨xo, hrec, hxo⟩ :=
      layers_decode cfg cos sin n i hi hres m cosd sind hc hsn bs
        (blockFull cfg b cos sin n X) x2 hx2
    refine ⟨xo, ?_, by rw [hxo]; rfl⟩
    show runLayersDecode cfg cosd sind 1 n (.boolMask m) [i] (b :: bs) xd
        ((cacheAt i (layerKs cfg b.attn cos sin X), cacheAt i (layerVs cfg b.attn X)) ::
          expCaches cfg cos sin n i bs (blockFull cfg b cos sin n X)) = _
    simp only [runLayersDecode]
    rw [hb]
    simp only [Except.bind]
    rw [hrec]
    rfl

theorem cacheAt_zero (rows : ℕ → ℕ → Vec) : cacheAt 0 rows = fun _ _ => zeroVec := by
  funext s g c
  simp [cacheAt, zeroVec]

/-- Before any decode step the expected caches are the zero-filled caches that
build_kv_caches creates. -/
theorem expCaches_zero (cfg : Config) (cos sin : ℕ → Vec) (T : ℕ) :
    ∀ (bs : List BlockParams) (X : ℕ → Vec),
      expCaches cfg cos sin T 0 bs X = List.replicate bs.length kvZero
  | [], _ => rfl
  | b :: bs, X => by
    simp only [expCaches, List.length_cons, List.replicate, kvZero, cacheAt_zero]
    exact congrArg _ (expCaches_zero cfg cos sin T bs (blockFull cfg b cos sin T X))

/-- The cache-selection line of gptForward is the identity on expected caches. -/
theorem ifEmpty_exp (cfg : Config) (cos sin : ℕ → Vec) (T i : ℕ)
    (bs : List BlockParams) (X : ℕ → Vec) :
    (if (expCaches cfg cos sin T i bs X).isEmpty then List.replicate bs.length kvZero
      else expCaches cfg cos sin T i bs X) = expCaches cfg cos sin T i bs X := by
  cases bs with
  | nil => simp [expCaches]
  | cons b bs2 => rfl

theorem range_map_getD (tok : ℕ → ℕ) (n i : ℕ) (hi : i < n) :
    ((List.range n).map tok).getD i 0 = tok i := by
  rw [List.getD_eq_getElem _ _ (by simpa using hi)]
  simp

/-- One decode step of the full model: feeding token i at position i with the
expected caches of step i succeeds, advances the caches to step i+1, and its single
logits row equals row i of the full-sequence logits. -/
theorem gpt_decode_step (cfg : Config) (p : GPTParams) (tok : ℕ → ℕ) (n i : ℕ)
    (hi : i < n) (hb : n ≤ cfg.block_size)
    (hres : cfg.parallel_residual = true ∨ cfg.shared_attention_norm = false)
    (st : List KVCache)
    (hst : (if st.isEmpty then List.replicate p.blocks.length kvZero else st) =
      expCaches cfg (ropeCos cfg) (ropeSin cfg) n i p.blocks
        (fun u => p.wte (((List.range n).map tok).getD u 0))) :
    ∃ L, gptForward cfg p st [tok i] (some n) (some [i]) =
        .ok (L, expCaches cfg (ropeCos cfg) (ropeSin cfg) n (i + 1) p.blocks
          (fun u => p.wte (((List.range n).map tok).getD u 0))) ∧
      ∀ v, L 0 v = fullLogitsFun cfg p ((List.range n).map tok) i v := by
  have hx : (fun t => p.wte ([tok i].getD t 0)) 0 =
      (fun u => p.wte (((List.range n).map tok).getD u 0)) i := by
    show p.wte (tok i) = p.wte (((List.range n).map tok).getD i 0)
    rw [range_map_getD tok n i hi]
  obtain ⟨xo, hrun, hxo⟩ :=
    layers_decode cfg (ropeCos cfg) (ropeSin cfg) n i hi hres
      (fun t j => buildMaskCache cfg ([i].getD t 0) j)
      (fun t => ropeCos cfg ([i].getD t 0)) (fun t => ropeSin cfg ([i].getD t 0))
      rfl rfl p.blocks
      (fun u => p.wte (((List.range n).map tok).getD u 0))
      (fun t => p.wte ([tok i].getD t 0)) hx
  have hlen : ((List.range n).map tok).length = n := by simp
  refine ⟨fun t => linearFwd cfg.n_embd p.lmHeadW zeroVec (MyNorm.forward xo t), ?_, ?_⟩
  · simp only [gptForward, Option.getD, List.length_cons, List.length_nil]
    rw [if_neg (by omega), if_neg (by omega), if_neg (by omega), hst]
    rw [hrun]
    simp only [Except.bind]
  · intro v
    simp only [fullLogitsFun, hlen, MyNorm.forward]
    rw [hxo]

/-- After i one-token decode steps from freshly reset caches, the collected logits
rows are the first i rows of the full-sequence logits and the cache state is the
expected one. -/
theorem decode_run_invariant (cfg : Config) (p : GPTParams) (tok : ℕ → ℕ) (n : ℕ)
    (hb : n ≤ cfg.block_size)
    (hres : cfg.parallel_residual = true ∨ cfg.shared_attention_norm = false) :
    ∀ i, i ≤ n →
      ∃ ls, decodeRun cfg p tok n i =
          .ok (ls, if i = 0 then ([] : List KVCache)
            else expCaches cfg (ropeCos cfg) (ropeSin cfg) n i p.blocks
              (fun u => p.wte (((List.range n).map tok).getD u 0))) ∧
        ls.length = i ∧
        ∀ j, j < i → ∀ v, ls.getD j zeroVec v =
          fullLogitsFun cfg p ((List.range n).map tok) j v := by
  intro i
  induction i with
  | zero => exact fun _ => ⟨[], by simp [decodeRun], rfl, by omega⟩
  | succ i ih =>
    intro hsn
    have hi : i < n := by omega
    obtain ⟨ls, hrun, hlen, hvals⟩ := ih (by omega)
    have hst : (if (if i = 0 then ([] : List KVCache)
          else expCaches cfg (ropeCos cfg) (ropeSin cfg) n i p.blocks
            (fun u => p.wte (((List.range n).map tok).getD u 0))).isEmpty
        then List.replicate p.blocks.length kvZero
        else (if i = 0 then ([] : List KVCache)
          else expCaches cfg (ropeCos cfg) (ropeSin cfg) n i p.blocks
            (fun u => p.wte (((List.range n).map tok).getD u 0)))) =
        expCaches cfg (ropeCos cfg) (ropeSin cfg) n i p.blocks
          (fun u => p.wte (((List.range n).map tok).getD u 0)) := by
      by_cases h0 : i = 0
      · subst h0
        simp only [if_pos rfl, List.isEmpty_nil, if_true]
        exact (expCaches_zero cfg (ropeCos cfg) (ropeSin cfg) n p.blocks _).symm
      · rw [if_neg h0]
        exact ifEmpty_exp cfg (ropeCos cfg) (ropeSin cfg) n i p.blocks _
    obtain ⟨L, hgpt, hLv⟩ := gpt_decode_step cfg p tok n i hi hb hres _ hst
    refine ⟨ls ++ [fun v => L 0 v], ?_, by simp [hlen], ?_⟩
    · simp only [decodeRun]
      rw [hrun]
      simp only [Except.bind]
      rw [hgpt]
      simp only [Except.bind]
      rw [if_neg (Nat.succ_ne_zero i)]
    · intro j hj v
      by_cases hji : j < i
      · rw [List.getD_append _ _ _ _ (by omega)]
        exact hvals j hji v
      · have hje : j = i := by omega
        subst hje
        rw [List.getD_append_right _ _ _ _ (by omega), hlen, Nat.sub_self]
        exact hLv v

/-- C3: with every AlphaInit already initialised (spiking parameters are plain
per-channel values) and freshly reset caches, calling QuantGPT.forward once per
token with input_pos = [i] and max_seq_length = n produces at each step the logits
row i of a single full-sequence forward call on the same n tokens; the boolean
decode mask never reaches the attention bias, but the zero-filled cache slots beyond
the written positions contribute relu(0)·0 = 0, so the two modes agree position by
position. -/
theorem incremental_decode_matches_full (cfg : Config) (p : GPTParams)
    (tok : ℕ → ℕ) (n : ℕ) (_hn0 : 0 < n) (hb : n ≤ cfg.block_size)
    (hres : cfg.parallel_residual = true ∨ cfg.shared_attention_norm = false) :
    ∃ Lfull ls stf,
      gptForward cfg p [] ((List.range n).map tok) none none = .ok (Lfull, []) ∧
      decodeRun cfg p tok n n = .ok (ls, stf) ∧
      ls.length = n ∧
      ∀ i, i < n → ∀ v, ls.getD i zeroVec v = Lfull i v := by
  have hfull := gpt_full cfg p [] ((List.range n).map tok) (by simpa using hb) hres
  obtain ⟨ls, hrun, hlen, hv⟩ := decode_run_invariant cfg p tok n hb hres n le_rfl
  exact ⟨_, ls, _, hfull, hrun, hlen, hv⟩

/-- Witness for the cache-correctness theorem at a one-token model with no blocks. -/
theorem incremental_decode_matches_full_ok :
    (0 : ℕ) < 1 ∧ (1 : ℕ) ≤ cfgA.block_size ∧
    ∃ Lfull ls stf,
      gptForward cfgA gptEmpty [] ((List.range 1).map fun _ => 0) none none =
        .ok (Lfull, []) ∧
      decodeRun cfgA gptEmpty (fun _ => 0) 1 1 = .ok (ls, stf) ∧
      ls.length = 1 ∧
      ∀ i, i < 1 → ∀ v, ls.getD i zeroVec v = Lfull i v :=
  ⟨Nat.one_pos, Nat.le_refl 1,
    incremental_decode_matches_full cfgA gptEmpty (fun _ => 0) 1 Nat.one_pos
      (Nat.le_refl 1) (Or.inl rfl)⟩

/-- C7: each AlphaInit parameter is initialised at most once: the first forward call
through an uninitialised AlphaInit sets it per channel to 4 times the mean absolute
value of the first batch and marks it initialised; a forward call on an initialised
one leaves the state untouched; running the initialisation on an initialised
parameter fails instead of overwriting. -/
theorem alpha_initialized_at_most_once (m : ℕ) (x : ℕ → Vec) (a : AlphaInit)
    (beta : Vec) :
    (a.inited = false →
      (heavesideForward m x a beta).2 =
        { data := a.initVal m x, size := a.size, inited := true } ∧
      ∀ c, a.initVal m x c = 4 * ((∑ r ∈ Finset.range m, |x r c|) / (m : ℝ))) ∧
    (a.inited = true → (heavesideForward m x a beta).2 = a) ∧
    (a.inited = true → a.initWrapper m x = .error "already initialized.") ∧
    (a.inited = false →
      a.initWrapper m x = .ok { data := a.initVal m x, size := a.size, inited := true }) := by
  refine ⟨fun h => ⟨?_, fun c => rfl⟩, fun h => ?_, fun h => ?_, fun h => ?_⟩
  · simp [heavesideForward, h]
  · simp [heavesideForward, h]
  · simp [AlphaInit.initWrapper, AlphaInit.initOnce, h]
  · simp [AlphaInit.initWrapper, AlphaInit.initOnce, h]

/-- Witness for the AlphaInit life-cycle theorem at concrete states. -/
theorem alpha_initialized_at_most_once_ok :
    (heavesideForward 1 (fun _ _ => 1) alphaU zeroVec).2.inited = true ∧
    alphaI.initWrapper 1 (fun _ _ => 1) = .error "already initialized." := by
  have h1 := (alpha_initialized_at_most_once 1 (fun _ _ => 1) alphaU zeroVec).1 rfl
  have h2 := (alpha_initialized_at_most_once 1 (fun _ _ => 1) alphaI zeroVec).2.2.1 rfl
  exact ⟨by rw [h1.1], h2⟩

/-- C9 (amended): the initialisation policy draws embedding and linear weights from
normal(0, sqrt(2/(5·n_embd))) and zeroes biases; the depth-dependent re-draw with
standard deviation 1/(sqrt(n_embd)·n_layer) is applied to the attention output
projection after (not instead of) the general draw, while the active feed-forward
(GptNeoxMLP) output projection keeps the general draw, its name matching none of the
override patterns (which name only the dormant LLaMAMLP/SwiGLU variants). -/
theorem init_policy_general_and_override (cfg : Config) :
    initTrace cfg .wteWeight = [.normalDist 0 (Real.sqrt (2 / (5 * (cfg.n_embd : ℝ))))] ∧
    initTrace cfg .lmHeadWeight = [.normalDist 0 (Real.sqrt (2 / (5 * (cfg.n_embd : ℝ))))] ∧
    initTrace cfg .attnLinWeight = [.normalDist 0 (Real.sqrt (2 / (5 * (cfg.n_embd : ℝ))))] ∧
    initTrace cfg .mlpFcWeight = [.normalDist 0 (Real.sqrt (2 / (5 * (cfg.n_embd : ℝ))))] ∧
    initTrace cfg .attnLinBias = [.zeros] ∧
    initTrace cfg .attnProjBias = [.zeros] ∧
    initTrace cfg .mlpFcBias = [.zeros] ∧
    initTrace cfg .mlpProjBias = [.zeros] ∧
    initTrace cfg .attnProjWeight =
      [.normalDist 0 (Real.sqrt (2 / (5 * (cfg.n_embd : ℝ)))),
        .normalDist 0 (1 / (Real.sqrt (cfg.n_embd : ℝ) * (cfg.n_layer : ℝ)))] ∧
    initTrace cfg .mlpProjWeight = [.normalDist 0 (Real.sqrt (2 / (5 * (cfg.n_embd : ℝ))))] := by
  have hstd : gptNeoxStd cfg = Real.sqrt (2 / (5 * (cfg.n_embd : ℝ))) := by
    rw [gptNeoxStd, div_div]
  have hov : projOverrideStd cfg = 1 / (Real.sqrt (cfg.n_embd : ℝ) * (cfg.n_layer : ℝ)) := by
    rw [projOverrideStd, div_div]
  refine ⟨?_, ?_, ?_, ?_, rfl, rfl, rfl, rfl, ?_, ?_⟩ <;> simp [initTrace, hstd, hov]

/-- C9 (counterexample): in the concrete configuration with 10 embedding channels
and 2 layers, the active feed-forward output projection ends with the general
standard deviation sqrt(2/50) = 1/5, which differs from the claimed depth-dependent
1/(sqrt(10)·2): the rescale is not applied to every feed-forward block. -/
theorem mlp_proj_keeps_general_std :
    finalInit cfgA .mlpProjWeight = some (.normalDist 0 (gptNeoxStd cfgA)) ∧
    gptNeoxStd cfgA ≠ projOverrideStd cfgA := by
  have e1 : cfgA.n_embd = 10 := rfl
  have e2 : cfgA.n_layer = 2 := rfl
  constructor
  · rfl
  · have hA : gptNeoxStd cfgA ^ 2 = 1 / 25 := by
      rw [gptNeoxStd, e1, Real.sq_sqrt (by norm_num : (0 : ℝ) ≤ 2 / 5 / ((10 : ℕ) : ℝ))]
      norm_num
    have hB : projOverrideStd cfgA ^ 2 = 1 / 40 := by
      rw [projOverrideStd, e1, e2, div_pow, div_pow,
        Real.sq_sqrt (by norm_num : (0 : ℝ) ≤ ((10 : ℕ) : ℝ))]
      norm_num
    intro heq
    rw [heq, hB] at hA
    norm_num at hA

/-- C10 (counterexample): with a configuration whose mlp_class selects the gated
LLaMAMLP variant, the constructed block still uses GptNeoxMLP: the feed-forward
sublayer is not the variant selected by the configuration. -/
theorem mlp_variant_ignores_config : Block.mlpVariant cfgB ≠ cfgB.mlp_class := by
  intro h
  exact absurd (show MLPClass.gptNeoxMLP = MLPClass.llamaMLP from h) (by decide)

/-- C10 (amended): every block's feed-forward sublayer is the spiking GptNeoxMLP
regardless of the configuration, and it computes proj(act2(fc(act1(x)))): spiking
activation, linear expansion to the intermediate width, spiking activation, then the
normalized output projection. -/
theorem mlp_always_spiking_composition (cfg : Config) (p : MLPParams) (x : Vec) :
    Block.mlpVariant cfg = MLPClass.gptNeoxMLP ∧
    GptNeoxMLP.forward cfg p x =
      NormedLinear.forward cfg.n_embd cfg.intermediate_size p.projScale p.projW p.projB
        (heaviside p.a2 p.b2 (linearFwd cfg.n_embd p.fcW p.fcB (heaviside p.a1 p.b1 x))) :=
  ⟨rfl, rfl⟩

/-- C8: the fail-fast checks: a full-sequence call whose input is longer than the
block size fails; a call whose max_seq_length exceeds the block size fails; a decode
call whose input is longer than max_seq_length fails; and Block.forward on a
sequential-residual-plus-shared-norm configuration fails; each with its descriptive
message. -/
theorem failfast_preconditions (cfg : Config) (p : GPTParams) (st : List KVCache)
    (idx : List ℕ) (m : ℕ) (pos : List ℕ) (bp : BlockParams) (x : ℕ → Vec) (T : ℕ)
    (cos sin : ℕ → Vec) (msl : ℕ) (mask : Option AttnMask) (ip : Option (List ℕ))
    (kv : Option KVCache) :
    (cfg.block_size < idx.length →
      gptForward cfg p st idx none none =
        .error "Cannot forward sequence: block size exceeded") ∧
    (cfg.block_size < m →
      gptForward cfg p st idx (some m) none =
        .error "Cannot attend: block size exceeded") ∧
    (m < idx.length →
      gptForward cfg p st idx (some m) (some pos) =
        .error "Cannot forward sequence: max seq length exceeded") ∧
    (cfg.parallel_residual = false → cfg.shared_attention_norm = true →
      Block.forward cfg bp x T cos sin msl mask ip kv =
        .error "No checkpoint amongst the ones we support uses this configuration (non-parallel residual and shared attention norm).") := by
  refine ⟨fun h => ?_, fun h => ?_, fun h => ?_, fun h1 h2 => ?_⟩
  · simp only [gptForward, Option.getD]
    rw [if_neg (by simp), if_pos (by omega)]
  · simp only [gptForward, Option.getD]
    rw [if_pos (by omega)]
  · simp only [gptForward, Option.getD]
    rw [if_pos (by omega)]
  · simp [Block.forward, h1, h2]

/-- Witness for the fail-fast theorem: a concrete decode call longer than its
max_seq_length and a concrete block with the unsupported configuration. -/
theorem failfast_preconditions_ok :
    gptForward cfgA gptEmpty [] [0, 0, 0] (some 2) (some [0]) =
      .error "Cannot forward sequence: max seq length exceeded" ∧
    Block.forward cfgC blockZero (fun _ => zeroVec) 1 (fun _ => zeroVec)
      (fun _ => zeroVec) 1 none none none =
      .error "No checkpoint amongst the ones we support uses this configuration (non-parallel residual and shared attention norm)." := by
  constructor
  · exact (failfast_preconditions cfgA gptEmpty [] [0, 0, 0] 2 [0] blockZero
      (fun _ => zeroVec) 1 (fun _ => zeroVec) (fun _ => zeroVec) 1 none none
      none).2.2.1 (by norm_num)
  · exact (failfast_preconditions cfgC gptEmpty [] [] 0 [] blockZero
      (fun _ => zeroVec) 1 (fun _ => zeroVec) (fun _ => zeroVec) 1 none none
      none).2.2.2 rfl rfl

/-- C6: in decode mode the returned cache is kvCacheUpdate of the fresh key/value
rows; when the last write position reaches max_seq_length the update shifts every
slot one position left (slot s receives old slot s+1, evicting slot 0) and writes
the new row at slot max_seq_length - 1; otherwise each position of input_pos
receives its new row and every other slot is unchanged. -/
theorem kv_cache_write_and_eviction (cfg : Config) (p : AttnParams) (x : ℕ → Vec)
    (T : ℕ) (cos sin : ℕ → Vec) (msl : ℕ) (mask : Option AttnMask)
    (ck cv : ℕ → ℕ → Vec) (pos : List ℕ) :
    ((CausalSelfAttention.forward cfg p x T cos sin msl mask (some pos)
        (some (ck, cv))).2 =
      some (kvCacheUpdate msl pos ck cv (layerKs cfg p cos sin x) (layerVs cfg p x))) ∧
    (∀ q2, pos = [q2] → msl ≤ q2 →
      (∀ s g c, s + 1 < msl →
        (kvCacheUpdate msl pos ck cv (layerKs cfg p cos sin x) (layerVs cfg p x)).1 s g c =
          ck (s + 1) g c ∧
        (kvCacheUpdate msl pos ck cv (layerKs cfg p cos sin x) (layerVs cfg p x)).2 s g c =
          cv (s + 1) g c) ∧
      (∀ g c,
        (kvCacheUpdate msl pos ck cv (layerKs cfg p cos sin x) (layerVs cfg p x)).1
            (msl - 1) g c = kRow cfg p (cos 0) (sin 0) (x 0) g c ∧
        (kvCacheUpdate msl pos ck cv (layerKs cfg p cos sin x) (layerVs cfg p x)).2
            (msl - 1) g c = vRow cfg p (x 0) g c)) ∧
    (pos.getLastD 0 < msl → pos.Nodup →
      (∀ s g c, s ∉ pos →
        (kvCacheUpdate msl pos ck cv (layerKs cfg p cos sin x) (layerVs cfg p x)).1 s g c =
          ck s g c ∧
        (kvCacheUpdate msl pos ck cv (layerKs cfg p cos sin x) (layerVs cfg p x)).2 s g c =
          cv s g c) ∧
      (∀ t g c, ∀ ht : t < pos.length,
        (kvCacheUpdate msl pos ck cv (layerKs cfg p cos sin x) (layerVs cfg p x)).1
            (pos.get ⟨t, ht⟩) g c = kRow cfg p (cos t) (sin t) (x t) g c ∧
        (kvCacheUpdate msl pos ck cv (layerKs cfg p cos sin x) (layerVs cfg p x)).2
            (pos.get ⟨t, ht⟩) g c = vRow cfg p (x t) g c)) := by
  refine ⟨attn_cache_snd cfg p x T cos sin msl mask pos ck cv, ?_, ?_⟩
  · rintro q2 rfl hm
    have hupd : kvCacheUpdate msl [q2] ck cv (layerKs cfg p cos sin x) (layerVs cfg p x) =
        (indexCopy [msl - 1] (rollLeft msl ck) (layerKs cfg p cos sin x),
          indexCopy [msl - 1] (rollLeft msl cv) (layerVs cfg p x)) := by
      rw [kvCacheUpdate, if_pos (by simpa using hm)]
    refine ⟨fun s g c hs => ?_, fun g c => ?_⟩
    · have hsne : s ∉ [msl - 1] := by simp; omega
      rw [hupd]
      constructor <;>
        · show indexCopy _ _ _ _ _ _ = _
          rw [indexCopy, if_neg hsne, rollLeft, Nat.mod_eq_of_lt hs]
    · have hmem : msl - 1 ∈ [msl - 1] := List.mem_singleton.mpr rfl
      rw [hupd]
      constructor <;>
        · show indexCopy _ _ _ _ _ _ = _
          rw [indexCopy, if_pos hmem, List.indexOf_cons_self]
          rfl
  · intro hlast hnd
    have hupd : kvCacheUpdate msl pos ck cv (layerKs cfg p cos sin x) (layerVs cfg p x) =
        (indexCopy pos ck (layerKs cfg p cos sin x),
          indexCopy pos cv (layerVs cfg p x)) := by
      rw [kvCacheUpdate, if_neg (not_le.mpr hlast)]
    refine ⟨fun s g c hs => ?_, fun t g c ht => ?_⟩
    · rw [hupd]
      constructor <;>
        · show indexCopy _ _ _ _ _ _ = _
          rw [indexCopy, if_neg hs]
    · have hmem : pos.get ⟨t, ht⟩ ∈ pos := pos.get_mem _ _
      have hidx : pos.indexOf (pos.get ⟨t, ht⟩) = t := List.get_indexOf hnd _
      rw [hupd]
      constructor <;>
        · show indexCopy _ _ _ _ _ _ = _
          rw [indexCopy, if_pos hmem, hidx]
          rfl

/-- Witness for the kv-cache theorem: with capacity 2 and a ramp-valued cache, an
eviction write at position 5 moves old slot 1 into slot 0, and an in-range write at
position 1 leaves slot 0 unchanged. -/
theorem kv_cache_write_and_eviction_ok :
    (kvCacheUpdate 2 [5] cacheRamp cacheRamp
        (layerKs cfgA attnZero (fun _ => zeroVec) (fun _ => zeroVec) (fun _ => zeroVec))
        (layerVs cfgA attnZero (fun _ => zeroVec))).1 0 0 0 = 1 ∧
    (kvCacheUpdate 2 [1] cacheRamp cacheRamp
        (layerKs cfgA attnZero (fun _ => zeroVec) (fun _ => zeroVec) (fun _ => zeroVec))
        (layerVs cfgA attnZero (fun _ => zeroVec))).1 0 0 0 = 0 := by
  constructor
  · have h := (kv_cache_write_and_eviction cfgA attnZero (fun _ => zeroVec) 1
      (fun _ => zeroVec) (fun _ => zeroVec) 2 none cacheRamp cacheRamp [5]).2.1 5 rfl
      (by norm_num)
    have h2 := (h.1 0 0 0 (by norm_num)).1
    rw [h2]
    simp [cacheRamp]
  · have h := (kv_cache_write_and_eviction cfgA attnZero (fun _ => zeroVec) 1
      (fun _ => zeroVec) (fun _ => zeroVec) 2 none cacheRamp cacheRamp [1]).2.2
      (by norm_num) (by simp)
    have h2 := (h.1 0 0 0 (by norm_num)).1
    rw [h2]
    simp [cacheRamp]

end

end SpikingLlama
